import Mathlib

/-!
Verification development for the `ironlobe` limit order book.

The embedding below follows `src/book/btree_book.rs` (the `BTreeBook`
implementation of the `Book` trait), together with the order and event
data model from `src/order/mod.rs`, `src/order/plain.rs` and
`src/event.rs`.

Modelling conventions:
* `BTreeMap<F64, VecDeque<T>>` is embedded as an association list
  `List (Price × List Order)` kept sorted by strictly ascending price key,
  which is the iteration order of a `BTreeMap`; `.rev()` iteration is
  embedded as iterating over the reversed list.
* `VecDeque` is a `List` whose head is the front of the deque
  (`push_back` appends at the tail).
* The event journal is the list of event kinds, in append order.
  Wall-clock timestamps (`Event.timestamp`, and the `created` / `modified`
  / `cancelled` fields of `PlainOrder`) are not modelled: no claim
  concerns them, and the repository's own tests compare journals through
  `check_event_logs`, which projects every event to its kind.
* `Arc<RwLock<...>>` interior mutability is embedded as plain state
  passing; the engine is single-writer (spec §5) and every operation here
  is a function from book state to book state.
-/

namespace Ironlobe

/-- Modelled from the spec: the module `crate::common` defining `Price` is
not under `src/`.  Spec §2/§3: a price is a finite 64-bit float wrapped in
a total-order type (`eq_float::F64`), used by the book only as an ordered
map key and in comparisons — never in arithmetic.  It is therefore
embedded as `Int`, a linearly ordered type with decidable comparison. -/
abbrev Price := Int

/-- Modelled from the spec: the module `crate::common` defining `Quantity`
is not under `src/`.  Spec §2: an unsigned 64-bit integer; embedded as
`Nat`.  Subtraction is `Nat` subtraction; every concrete run appearing in
the theorems below was chosen so that no subtraction underflows (where the
Rust `u64` arithmetic would panic in a debug build). -/
abbrev Quantity := Nat

/-- `pub type OrderId = u128` (`src/order/mod.rs`). -/
abbrev OrderId := Nat

/-- `enum OrderKind { Bid, Ask }` (`src/order/mod.rs`). -/
inductive OrderKind where
  | bid
  | ask
deriving DecidableEq, Repr

/-- `OrderKind::opposite` (`src/order/mod.rs`). -/
def OrderKind.opposite : OrderKind → OrderKind
  | .bid => .ask
  | .ask => .bid

/-- The order entity: `PlainOrder` (`src/order/plain.rs`) restricted to the
fields the book reads (`id`, `kind`, `price`, `quantity`); see the module
comment for why the three timestamp fields are not modelled. -/
structure Order where
  id : OrderId
  kind : OrderKind
  price : Price
  quantity : Quantity
deriving DecidableEq, Repr

/-- `MatchInfo { incumbent, others }` (`src/event.rs`). -/
structure MatchInfo where
  incumbent : Order
  others : List (Order × Quantity)
deriving DecidableEq, Repr

/-- `enum Match { Full(MatchInfo), Partial(MatchInfo) }` (`src/event.rs`);
the `Partial` constructor is named `part` here. -/
inductive Match where
  | full : MatchInfo → Match
  | part : MatchInfo → Match
deriving DecidableEq, Repr

/-- `enum EventKind { Post, Match, Cancel }` (`src/event.rs`); the `Match`
constructor is named `matched` here. -/
inductive EventKind where
  | post : Order → EventKind
  | matched : Match → EventKind
  | cancel : Order → EventKind
deriving DecidableEq, Repr

/-- Is this journal entry a `Match` event? -/
def EventKind.isMatch : EventKind → Bool
  | .matched _ => true
  | _ => false

/-- One side of the book: `BTreeMap<F64, VecDeque<T>>`, as a price-keyed
association list in ascending key order. -/
abbrev Side := List (Price × List Order)

/-- The book state of `BTreeBook<T>` (`src/book/btree_book.rs`, lines
41-56): bids, asks, the event log, the last traded price, the
`(bid, ask)` depth pair, and the pending-removal buffer.  The `Metadata`
field (id/name/ticker strings) plays no part in any operation and is
omitted. -/
structure Book where
  bids : Side
  asks : Side
  events : List EventKind
  ltp : Option Price
  depth : Quantity × Quantity
  removals : List OrderId
deriving DecidableEq, Repr

/-- `BTreeBook::new` / `BTreeBook::meta`: empty sides, empty journal, no
LTP, zero depth (lines 121-149). -/
def emptyBook : Book :=
  { bids := [], asks := [], events := [], ltp := none,
    depth := (0, 0), removals := [] }

/-- `BTreeBook::top` (lines 444-449): `first_key_value` on each side, i.e.
the SMALLEST key of each map (the head of the ascending association
list). -/
def Book.top (b : Book) : Option Price × Option Price :=
  (b.bids.head?.map Prod.fst, b.asks.head?.map Prod.fst)

/-- `BTreeBook::crosses` (lines 152-163): a bid crosses iff its price is
at least `top().1`, an ask crosses iff its price is at most `top().0`;
false when the consulted component is absent. -/
def Book.crosses (b : Book) (price : Price) (kind : OrderKind) : Bool :=
  match kind with
  | .bid =>
    match b.top.2 with
    | some bestAsk => decide (price ≥ bestAsk)
    | none => false
  | .ask =>
    match b.top.1 with
    | some bestBid => decide (price ≤ bestBid)
    | none => false

/-- `BTreeBook::crossed` (lines 451-457): both tops exist and
`best_ask > best_bid`. -/
def Book.crossed (b : Book) : Bool :=
  match b.top with
  | (some bestBid, some bestAsk) => decide (bestAsk > bestBid)
  | _ => false

/-- `BTreeMap::entry(price).or_insert(empty deque).push_back(order)`:
insert into the sorted association list, appending to the back of an
existing level's deque. -/
def insertOrder (p : Price) (o : Order) : Side → Side
  | [] => [(p, [o])]
  | (q, l) :: rest =>
    if p < q then (p, [o]) :: (q, l) :: rest
    else if p = q then (q, l ++ [o]) :: rest
    else (q, l) :: insertOrder p o rest

/-- `BTreeBook::add_order` (lines 166-191): push the order to the back of
its price level on its own side, increment that side's depth by the
order's quantity, and append a `Post` event. -/
def Book.addOrder (b : Book) (o : Order) : Book :=
  match o.kind with
  | .bid =>
    { b with bids := insertOrder o.price o b.bids,
             depth := (b.depth.1 + o.quantity, b.depth.2),
             events := b.events ++ [.post o] }
  | .ask =>
    { b with asks := insertOrder o.price o b.asks,
             depth := (b.depth.1, b.depth.2 + o.quantity),
             events := b.events ++ [.post o] }

/-- The `reduce_depth` closure of `BTreeBook::r#match` (lines 219-231):
for an incoming bid reduce the ask depth, for an incoming ask reduce the
bid depth. -/
def reduceDepth (kind : OrderKind) (r : Quantity) :
    Quantity × Quantity → Quantity × Quantity
  | (db, da) =>
    match kind with
    | .bid => (db, da - r)
    | .ask => (db - r, da)

/-- The mutable state threaded through `BTreeBook::r#match`: the incoming
order's remaining quantity, the journal, the pending removals, the depth
pair, and the local `ltp` variable. -/
structure MState where
  rem : Quantity
  events : List EventKind
  removals : List OrderId
  depth : Quantity × Quantity
  ltpv : Price
deriving DecidableEq, Repr

/-- The inner `while let Some(incumbent) = orders.iter_mut().next()` loop
of `r#match` (lines 240-301) on one price level, given a non-empty deque.
`orders.iter_mut().next()` re-reads the FRONT of the deque on every
iteration, and matched incumbents are only scheduled for removal (pruned
after the loop), so `front` never changes identity during the loop:
* `Ordering::Greater` (front quantity exceeds the remainder): emit
  `Match(Partial)` recording `(order, order.quantity)`, subtract the
  incoming order's ORIGINAL quantity from the front's quantity, zero the
  remainder, reduce the opposing depth by the original quantity;
* `Ordering::Equal`: emit `Match(Full)` recording `(order,
  order.quantity)`, zero the remainder, reduce depth and schedule the
  front for removal;
* `Ordering::Less`: emit `Match(Full)` recording `(order,
  order.quantity)`, schedule the front for removal, subtract its quantity
  from the remainder, reduce depth — and iterate again on the SAME front.
The loop ends only when the remainder reaches zero; if the front's
quantity is zero while the remainder is positive the source loop spins
forever, which is modelled as `none`.  `fuel` bounds the recursion; every
`Less` step strictly decreases the remainder by at least one, so calling
with `fuel := s.rem + 1` keeps `s.rem < fuel` invariant and makes the
fuel-exhaustion branch unreachable from `matchDeque`. -/
def matchQueueGo (o front : Order) (rest : List Order) :
    Nat → MState → Option (List Order × MState)
  | 0, _ => none
  | fuel + 1, s =>
    if s.rem = 0 then some (front :: rest, s)
    else
      if s.rem < front.quantity then
        some ({ front with quantity := front.quantity - o.quantity } :: rest,
          { s with rem := 0,
                   events := s.events ++
                     [.matched (.part ⟨front, [(o, o.quantity)]⟩)],
                   depth := reduceDepth o.kind o.quantity s.depth,
                   ltpv := front.price })
      else if front.quantity = s.rem then
        some (front :: rest,
          { s with rem := 0,
                   events := s.events ++
                     [.matched (.full ⟨front, [(o, o.quantity)]⟩)],
                   removals := s.removals ++ [front.id],
                   depth := reduceDepth o.kind front.quantity s.depth,
                   ltpv := front.price })
      else if front.quantity = 0 then
        none
      else
        matchQueueGo o front rest fuel
          { s with rem := s.rem - front.quantity,
                   events := s.events ++
                     [.matched (.full ⟨front, [(o, o.quantity)]⟩)],
                   removals := s.removals ++ [front.id],
                   depth := reduceDepth o.kind front.quantity s.depth,
                   ltpv := front.price }

/-- The inner loop on one level's deque: an empty deque ends the `while
let` immediately. -/
def matchDeque (o : Order) (dq : List Order) (s : MState) :
    Option (List Order × MState) :=
  match dq with
  | [] => some ([], s)
  | f :: r => matchQueueGo o f r (s.rem + 1) s

/-- The outer `for (level, orders) in opposing_side` loop of `r#match`
(lines 235-305), over the opposing levels in the order they were passed
(descending, because `add` passes `.rev()`): stop when the remainder is
zero or the level's price exceeds the incoming order's price; otherwise
run the inner loop and continue.  Levels not reached are returned
untouched. -/
def matchLevels (o : Order) :
    List (Price × List Order) → MState →
    Option (List (Price × List Order) × MState)
  | [], s => some ([], s)
  | (p, dq) :: rest, s =>
    if s.rem = 0 then some ((p, dq) :: rest, s)
    else if p ≤ o.price then
      match matchDeque o dq s with
      | none => none
      | some (dq', s') =>
        match matchLevels o rest s' with
        | none => none
        | some (rest', s'') => some ((p, dq') :: rest', s'')
    else some ((p, dq) :: rest, s)

/-- `BTreeBook::r#match` (lines 212-307) on a book, given the opposing
levels in iteration order: initialise the local `ltp` to the incoming
order's price and the remainder to its quantity, run the loops, then
write the journal, removals, depth and — unconditionally — `Some(ltp)`
back to the book.  `none` propagates the source's non-termination. -/
def Book.runMatch (b : Book) (o : Order)
    (oppDesc : List (Price × List Order)) :
    Option (List (Price × List Order) × Book) :=
  let s0 : MState :=
    { rem := o.quantity, events := b.events, removals := b.removals,
      depth := b.depth, ltpv := o.price }
  match matchLevels o oppDesc s0 with
  | none => none
  | some (levels', s) =>
    some (levels',
      { b with events := s.events, removals := s.removals,
               depth := s.depth, ltp := some s.ltpv })

/-- Remove the first order with the given id from a deque
(`level.iter().position(|x| x.id() == order_id)` then `remove(pos)`). -/
def removeFirstById (oid : OrderId) : List Order → List Order
  | [] => []
  | x :: r => if x.id = oid then r else x :: removeFirstById oid r

/-- One side of `BTreeBook::remove_order` (lines 338-375): of all levels
containing an order with the given id, take the FIRST in ascending key
order and remove the order at its found position; other levels are
untouched, and nothing happens when no level contains the id. -/
def removeOrderLevels (oid : OrderId) : Side → Side
  | [] => []
  | (p, dq) :: rest =>
    if dq.any (fun x => x.id = oid) then (p, removeFirstById oid dq) :: rest
    else (p, dq) :: removeOrderLevels oid rest

/-- `BTreeBook::remove_order` (lines 338-375): run the bid-side block and
then the ask-side block. -/
def Book.removeOrder (b : Book) (oid : OrderId) : Book :=
  { b with bids := removeOrderLevels oid b.bids,
           asks := removeOrderLevels oid b.asks }

/-- `BTreeBook::prune` (lines 309-336): apply `remove_order` to every
pending removal in order, clear the removal buffer, then drop every level
whose deque is empty, on both sides. -/
def Book.prune (b : Book) : Book :=
  let b1 := b.removals.foldl (fun bb oid => bb.removeOrder oid) b
  { b1 with removals := [],
            bids := b1.bids.filter (fun pl => !pl.2.isEmpty),
            asks := b1.asks.filter (fun pl => !pl.2.isEmpty) }

/-- `BTreeBook::order` (lines 396-404): find the first level — searching
the BID side only — whose deque contains an order with the given id, and
return that order. -/
def Book.order (b : Book) (oid : OrderId) : Option Order :=
  (b.bids.find? (fun pl => pl.2.any (fun x => x.id = oid))).bind
    (fun pl => pl.2.find? (fun x => x.id = oid))

/-- `BTreeBook::cancel` (lines 426-434): look the id up with `order` (bids
only); on a hit append a `Cancel` event, run `remove_order`, and return
the order; on a miss return `none` leaving the book untouched.  No depth
adjustment and no pruning happen on either path. -/
def Book.cancel (b : Book) (oid : OrderId) : Option Order × Book :=
  match b.order oid with
  | none => (none, b)
  | some o =>
    (some o, Book.removeOrder { b with events := b.events ++ [.cancel o] } oid)

/-- `BTreeBook::add` (lines 406-424): a non-crossing order is posted via
`add_order`; a crossing order runs `r#match` against the opposing side
iterated with `.rev()` — i.e. in DESCENDING key order for both an
incoming bid (over asks) and an incoming ask (over bids) — followed by
`prune`.  `none` propagates the match loop's non-termination. -/
def Book.add (b : Book) (o : Order) : Option Book :=
  if b.crosses o.price o.kind then
    match o.kind with
    | .bid =>
      match b.runMatch o b.asks.reverse with
      | none => none
      | some (asksDesc, b') =>
        some (Book.prune { b' with asks := asksDesc.reverse })
    | .ask =>
      match b.runMatch o b.bids.reverse with
      | none => none
      | some (bidsDesc, b') =>
        some (Book.prune { b' with bids := bidsDesc.reverse })
  else
    some (b.addOrder o)

/-- The sum of the remaining quantities of all orders resting on one side
(the quantity the spec's depth invariant asserts the stored depth
equals). -/
def sideQuantity (s : Side) : Quantity :=
  (s.map (fun pl => (pl.2.map Order.quantity).sum)).sum

/-- The deque stored at a given price key, empty when the key is absent. -/
def levelAt (s : Side) (p : Price) : List Order :=
  ((s.find? (fun pl => pl.1 = p)).map Prod.snd).getD []

/-- The side of the book an order of the given kind rests on. -/
def Book.sideLevels (b : Book) (kind : OrderKind) : Side :=
  match kind with
  | .bid => b.bids
  | .ask => b.asks

/-! Concrete runs used to evaluate the source at specific inputs.  Every
`add` below is on a path the source terminates on, so the runs are
`some`-valued and compute by kernel reduction. -/

/-- Two resting asks at prices 5 and 8, then a crossing bid at 10: the
run from `src/book/btree_book.rs` lines 406-424 and 235-307. -/
def priorityRun : Option Book :=
  (emptyBook.add ⟨1, .ask, 5, 1⟩).bind fun b =>
    (b.add ⟨2, .ask, 8, 1⟩).bind fun b =>
      b.add ⟨3, .bid, 10, 1⟩

/-- Post one bid, then cancel it. -/
def cancelBidRun : Option (Option Order × Book) :=
  (emptyBook.add ⟨1, .bid, 10, 5⟩).map fun b => b.cancel 1

/-- Post one ask, then cancel it. -/
def cancelAskRun : Option (Option Order × Book) :=
  (emptyBook.add ⟨1, .ask, 10, 5⟩).map fun b => b.cancel 1

/-- Two resting bids at prices 10 and 12 (neither crosses: the ask side
stays empty). -/
def twoBidsRun : Option Book :=
  (emptyBook.add ⟨1, .bid, 10, 5⟩).bind fun b => b.add ⟨2, .bid, 12, 5⟩

/-- Two resting bids at 10 and 12, then an ask at 9 which the source
reports as crossing but never matches (the descending walk hits level 12
first and `12 ≤ 9` fails, breaking the loop). -/
def noTradeLtpRun : Option Book :=
  (emptyBook.add ⟨1, .bid, 10, 5⟩).bind fun b =>
    (b.add ⟨2, .bid, 12, 5⟩).bind fun b =>
      b.add ⟨3, .ask, 9, 5⟩

/-- Asks of quantity 100 at price 3 and quantity 3 at price 5, then a
crossing bid at 10 of quantity 6: the match loop reaches the ask of
quantity 3 (case `qi < q`) first. -/
def lessCaseRun : Option Book :=
  (emptyBook.add ⟨1, .ask, 3, 100⟩).bind fun b =>
    (b.add ⟨2, .ask, 5, 3⟩).bind fun b =>
      b.add ⟨3, .bid, 10, 6⟩

/-- A bid at 10 and an ask at 12: a perfectly normal, uncrossed book. -/
def normalBookRun : Option Book :=
  (emptyBook.add ⟨1, .bid, 10, 1⟩).bind fun b => b.add ⟨2, .ask, 12, 1⟩

/-!  Theorems settling the claims.  -/

/-- Claim C1 (price-time priority) fails on the code.  With asks of
quantity 1 resting at prices 5 and 8 and an incoming crossing bid at 10,
the claim requires the better-priced ask (price 5, id 1) to be matched
first; evaluating `add` shows the engine instead matches the ask at price
8 (id 2) — `add` passes the ask side to the match loop with `.rev()`, so
levels are walked in descending price order — and leaves the price-5 ask
resting. -/
theorem match_consumes_worse_priced_ask_first :
    priorityRun = some
      { bids := [],
        asks := [(5, [⟨1, .ask, 5, 1⟩])],
        events := [.post ⟨1, .ask, 5, 1⟩, .post ⟨2, .ask, 8, 1⟩,
          .matched (.full ⟨⟨2, .ask, 8, 1⟩, [(⟨3, .bid, 10, 1⟩, 1)]⟩)],
        ltp := some 8,
        depth := (0, 1),
        removals := [] } := by
  decide

/-- Claim C2 (depth consistency after every add and cancel) fails on the
code.  After posting a single bid of quantity 5 and cancelling it, the
bid side holds no orders (sum of resting quantities 0) yet the stored bid
depth is still 5: `cancel` removes the order without touching `depth`. -/
theorem cancel_breaks_depth_consistency :
    cancelBidRun.map (fun r => (sideQuantity r.2.bids, r.2.depth)) =
      some (0, (5, 0)) := by
  decide

/-- Claim C3 (cancel semantics) fails on the code.  With an ask of
quantity 5 resting at price 10, `cancel` of its id returns `none` and
leaves the whole book — journal included — unchanged, because
`BTreeBook::order` scans only the BID side; the claim requires the
resting ask to be cancelled, journalled and returned.  (The bid-side path
is also wrong: it never decrements depth, as the C2 theorem shows.) -/
theorem cancel_misses_resting_ask :
    cancelAskRun = some (none,
      { bids := [],
        asks := [(10, [⟨1, .ask, 10, 5⟩])],
        events := [.post ⟨1, .ask, 10, 5⟩],
        ltp := none,
        depth := (0, 5),
        removals := [] }) := by
  decide

/-- Claim C4 (`top` returns the largest bid key) fails on the code.  With
bids resting at prices 10 and 12, the largest bid key is 12, but `top`
returns `(some 10, none)`: the source calls `first_key_value` — the
SMALLEST key of a `BTreeMap` — on the bid side. -/
theorem top_returns_smallest_bid_key :
    twoBidsRun.map (fun b => (b.bids.map Prod.fst, b.top)) =
      some ([10, 12], (some 10, none)) := by
  decide

/-- Claim C5 (LTP is absent until the first executed match) fails on the
code.  With bids resting at 10 and 12, an incoming ask at 9 is reported
as crossing, yet the match loop executes no match at all (walking bids in
descending order it hits level 12 first and `12 ≤ 9` breaks the loop):
the journal holds only the two `Post` events.  Still, `r#match`
unconditionally writes `Some(ltp)` with `ltp` initialised to the incoming
order's limit price, so `ltp()` returns `some 9` although no trade has
ever executed. -/
theorem ltp_set_without_any_match :
    noTradeLtpRun.map
        (fun b => (b.ltp, b.events.filter EventKind.isMatch, b.events.length)) =
      some (some 9, [], 2) := by
  decide

/-- Claim C6 (`crosses(price, Ask)` compares against the best, i.e.
highest, bid) fails on the code.  With bids resting at 10 and 12, an ask
at 11 satisfies `11 ≤ 12` and so crosses per the claim, but the code
compares against `top().0` — the SMALLEST bid key, 10 — and returns
`false`. -/
theorem crosses_ask_uses_smallest_bid :
    twoBidsRun.map
        (fun b => (b.bids.map Prod.fst, b.crosses 11 .ask)) =
      some ([10, 12], false) := by
  decide

/-- Claim C7 (the `qi < q` match case) fails on the code.  With an ask of
quantity 3 (id 2, price 5) as the reached incumbent and an incoming bid
of quantity 6, the claim requires one `Match(Full)` recording the traded
quantity `qi = 3`, removal of the incumbent, and continuation.  The code
instead records the incoming order's FULL quantity 6 in the event, and —
because the `while` loop re-reads the front of the deque, which is only
scheduled for removal — matches the very same incumbent a second time,
emitting a second identical `Match(Full)` and reducing the ask depth by 3
twice (stored ask depth 97, though 100 remains resting). -/
theorem less_case_records_full_quantity_and_rematches :
    lessCaseRun = some
      { bids := [],
        asks := [(3, [⟨1, .ask, 3, 100⟩])],
        events := [.post ⟨1, .ask, 3, 100⟩, .post ⟨2, .ask, 5, 3⟩,
          .matched (.full ⟨⟨2, .ask, 5, 3⟩, [(⟨3, .bid, 10, 6⟩, 6)]⟩),
          .matched (.full ⟨⟨2, .ask, 5, 3⟩, [(⟨3, .bid, 10, 6⟩, 6)]⟩)],
        ltp := some 5,
        depth := (0, 97),
        removals := [] } := by
  decide

/-- Claim C8 (`crossed()` is false after every `add`) fails on the code.
Posting a bid at 10 and then an ask at 12 — a perfectly normal, uncrossed
book — leaves `crossed()` returning `true`: the source's comparison
`best_ask > best_bid` is inverted (it flags exactly the NON-crossed
arrangements in which both sides are populated). -/
theorem crossed_true_after_normal_adds :
    normalBookRun.map Book.crossed = some true := by
  decide

/-- Any terminating run of the inner match loop only appends `Match`
events to the journal. -/
theorem matchQueueGo_events (o front : Order) (rest : List Order) :
    ∀ (fuel : Nat) (s : MState) (r : List Order × MState),
      matchQueueGo o front rest fuel s = some r →
      ∃ d, r.2.events = s.events ++ d ∧ d.all EventKind.isMatch = true := by
  intro fuel
  induction fuel with
  | zero =>
    intro s r h
    rw [matchQueueGo] at h
    exact Option.noConfusion h
  | succ n ih =>
    intro s r h
    rw [matchQueueGo] at h
    split_ifs at h with h1 h2 h3 h4
    · simp only [Option.some.injEq] at h
      subst h
      exact ⟨[], by simp⟩
    · simp only [Option.some.injEq] at h
      subst h
      exact ⟨[.matched (.part ⟨front, [(o, o.quantity)]⟩)],
        by simp, by simp [EventKind.isMatch]⟩
    · simp only [Option.some.injEq] at h
      subst h
      exact ⟨[.matched (.full ⟨front, [(o, o.quantity)]⟩)],
        by simp, by simp [EventKind.isMatch]⟩
    · obtain ⟨d, hd, ha⟩ := ih _ _ h
      refine ⟨.matched (.full ⟨front, [(o, o.quantity)]⟩) :: d, ?_, ?_⟩
      · rw [hd]; simp
      · simp [EventKind.isMatch, ha]

/-- The per-level loop only appends `Match` events. -/
theorem matchDeque_events (o : Order) (dq : List Order) (s : MState)
    (r : List Order × MState) (h : matchDeque o dq s = some r) :
    ∃ d, r.2.events = s.events ++ d ∧ d.all EventKind.isMatch = true := by
  cases dq with
  | nil =>
    simp only [matchDeque, Option.some.injEq] at h
    subst h
    exact ⟨[], by simp⟩
  | cons f rest => exact matchQueueGo_events o f rest _ s r h

/-- The outer level loop only appends `Match` events. -/
theorem matchLevels_events (o : Order) :
    ∀ (ls : List (Price × List Order)) (s : MState)
      (r : List (Price × List Order) × MState),
      matchLevels o ls s = some r →
      ∃ d, r.2.events = s.events ++ d ∧ d.all EventKind.isMatch = true := by
  intro ls
  induction ls with
  | nil =>
    intro s r h
    simp only [matchLevels, Option.some.injEq] at h
    subst h
    exact ⟨[], by simp⟩
  | cons hd tl ih =>
    obtain ⟨p, dq⟩ := hd
    intro s r h
    rw [matchLevels] at h
    split_ifs at h with h1 h2
    · simp only [Option.some.injEq] at h
      subst h
      exact ⟨[], by simp⟩
    · split at h
      · exact absurd h (by simp)
      · rename_i dq' s' hm
        split at h
        · exact absurd h (by simp)
        · rename_i rest' s'' hl
          simp only [Option.some.injEq] at h
          subst h
          obtain ⟨d1, hd1, ha1⟩ := matchDeque_events o dq s _ hm
          obtain ⟨d2, hd2, ha2⟩ := ih s' _ hl
          have e1 : s'.events = s.events ++ d1 := hd1
          have e2 : s''.events = s'.events ++ d2 := hd2
          exact ⟨d1 ++ d2, by rw [e2, e1, List.append_assoc],
            by simp [List.all_append, ha1, ha2]⟩
    · simp only [Option.some.injEq] at h
      subst h
      exact ⟨[], by simp⟩

/-- `r#match` only appends `Match` events. -/
theorem runMatch_events (b : Book) (o : Order)
    (opp lv : List (Price × List Order)) (b' : Book)
    (h : b.runMatch o opp = some (lv, b')) :
    ∃ d, b'.events = b.events ++ d ∧ d.all EventKind.isMatch = true := by
  rw [Book.runMatch] at h
  split at h
  · exact absurd h (by simp)
  · rename_i levels' s hm
    simp only [Option.some.injEq, Prod.mk.injEq] at h
    obtain ⟨h1, h2⟩ := h
    subst h2
    obtain ⟨d, hd, ha⟩ := matchLevels_events o opp _ _ hm
    exact ⟨d, hd, ha⟩

/-- `remove_order` does not touch the journal. -/
theorem removeOrder_events (b : Book) (oid : OrderId) :
    (b.removeOrder oid).events = b.events := rfl

/-- Draining the removal buffer does not touch the journal. -/
theorem foldl_removeOrder_events (l : List OrderId) :
    ∀ b : Book,
      (l.foldl (fun bb oid => bb.removeOrder oid) b).events = b.events := by
  induction l with
  | nil => intro b; rfl
  | cons a t ih =>
    intro b
    simp only [List.foldl_cons]
    rw [ih]
    exact removeOrder_events b a

/-- `prune` does not touch the journal. -/
theorem prune_events (b : Book) : (Book.prune b).events = b.events := by
  rw [Book.prune]
  exact foldl_removeOrder_events b.removals b

/-- `add_order` appends exactly one `Post` event. -/
theorem addOrder_events (b : Book) (o : Order) :
    (b.addOrder o).events = b.events ++ [EventKind.post o] := by
  obtain ⟨i, k, p, q⟩ := o
  cases k <;> rfl

/-- Claim C9: for every single call to `add` that returns, the events it
appends to the journal are either exactly one `Post` event for the added
order (the non-crossing path) or zero or more `Match` events, appended in
the order the levels and incumbents are traversed (the crossing path) —
never both a `Post` and a `Match` for the same call. -/
theorem add_event_discipline (b : Book) (o : Order) (b' : Book)
    (h : b.add o = some b') :
    b'.events = b.events ++ [EventKind.post o] ∨
    ∃ d, b'.events = b.events ++ d ∧ d.all EventKind.isMatch = true := by
  rw [Book.add] at h
  by_cases hc : b.crosses o.price o.kind = true
  · rw [if_pos hc] at h
    right
    rcases hk : o.kind with _ | _
    · rw [hk] at h
      dsimp only at h
      split at h
      · exact Option.noConfusion h
      · rename_i lv b2 hm
        simp only [Option.some.injEq] at h
        subst h
        obtain ⟨d, hd, ha⟩ := runMatch_events b o _ _ _ hm
        refine ⟨d, ?_, ha⟩
        rw [prune_events]
        exact hd
    · rw [hk] at h
      dsimp only at h
      split at h
      · exact Option.noConfusion h
      · rename_i lv b2 hm
        simp only [Option.some.injEq] at h
        subst h
        obtain ⟨d, hd, ha⟩ := runMatch_events b o _ _ _ hm
        refine ⟨d, ?_, ha⟩
        rw [prune_events]
        exact hd
  · rw [if_neg hc] at h
    left
    simp only [Option.some.injEq] at h
    subst h
    exact addOrder_events b o

/-- Witness for C9: adding a bid to the empty book takes the `Post`
branch of the discipline. -/
theorem add_event_discipline_witness :
    (emptyBook.addOrder ⟨1, .bid, 10, 1⟩).events =
      emptyBook.events ++ [EventKind.post ⟨1, .bid, 10, 1⟩] ∨
    ∃ d, (emptyBook.addOrder ⟨1, .bid, 10, 1⟩).events = emptyBook.events ++ d ∧
      d.all EventKind.isMatch = true :=
  add_event_discipline emptyBook ⟨1, .bid, 10, 1⟩ _ (by decide)

/-- `add_order` inserts into the side named by the order's kind. -/
theorem sideLevels_addOrder (b : Book) (o : Order) :
    (b.addOrder o).sideLevels o.kind =
      insertOrder o.price o (b.sideLevels o.kind) := by
  obtain ⟨i, k, p, q⟩ := o
  cases k <;> rfl

/-- Inserting into a side whose keys are strictly ascending appends the
order to the back of its price level. -/
theorem levelAt_insertOrder (p : Price) (o : Order) :
    ∀ ls : Side, ls.Pairwise (fun x y => x.1 < y.1) →
      levelAt (insertOrder p o ls) p = levelAt ls p ++ [o] := by
  intro ls
  induction ls with
  | nil =>
    intro _
    simp [insertOrder, levelAt]
  | cons hd tl ih =>
    obtain ⟨q, l⟩ := hd
    intro hs
    rw [insertOrder]
    rcases lt_trichotomy p q with h1 | h1 | h1
    · rw [if_pos h1]
      have hql : ∀ x ∈ tl, q < x.1 := (List.pairwise_cons.mp hs).1
      have hnone : List.find? (fun pl => decide (pl.1 = p)) tl = none := by
        apply List.find?_eq_none.mpr
        intro x hx
        simp only [decide_eq_true_eq]
        intro he
        exact absurd (he ▸ h1.trans (hql x hx)) (lt_irrefl p)
      unfold levelAt
      rw [List.find?_cons_of_pos _ (by simp),
        List.find?_cons_of_neg _ (by simp [h1.ne']), hnone]
      rfl
    · rw [if_neg (by simp [h1]), if_pos h1]
      unfold levelAt
      rw [List.find?_cons_of_pos _ (by simp [h1]),
        List.find?_cons_of_pos _ (by simp [h1])]
      rfl
    · rw [if_neg (by simp [not_lt.mpr h1.le]), if_neg h1.ne']
      unfold levelAt
      rw [List.find?_cons_of_neg _ (by simp [h1.ne]),
        List.find?_cons_of_neg _ (by simp [h1.ne])]
      exact ih ((List.pairwise_cons.mp hs).2)

/-- Claim C10: a zero-quantity order that does not cross (in particular
any order submitted to the empty book, whose `crosses` is always false)
is posted as resting liquidity: `add` returns with exactly one `Post`
event appended, and the order now sits at the back of its price level on
its own side — it remains resting.  The side is assumed key-sorted, as
`BTreeMap` guarantees. -/
theorem zero_qty_noncrossing_posts (b : Book) (o : Order)
    ( _hq : o.quantity = 0)
    (hs : (b.sideLevels o.kind).Pairwise (fun x y => x.1 < y.1))
    (hc : b.crosses o.price o.kind = false) :
    b.add o = some (b.addOrder o) ∧
    (b.addOrder o).events = b.events ++ [EventKind.post o] ∧
    levelAt ((b.addOrder o).sideLevels o.kind) o.price =
      levelAt (b.sideLevels o.kind) o.price ++ [o] := by
  refine ⟨?_, addOrder_events b o, ?_⟩
  · rw [Book.add, if_neg (by simp [hc])]
  · rw [sideLevels_addOrder]
    exact levelAt_insertOrder o.price o _ hs

/-- Witness for C10: a zero-quantity bid at price 10 on the empty book. -/
theorem zero_qty_noncrossing_posts_witness :
    emptyBook.add ⟨7, .bid, 10, 0⟩ = some (emptyBook.addOrder ⟨7, .bid, 10, 0⟩) ∧
    (emptyBook.addOrder ⟨7, .bid, 10, 0⟩).events =
      emptyBook.events ++ [EventKind.post ⟨7, .bid, 10, 0⟩] ∧
    levelAt ((emptyBook.addOrder ⟨7, .bid, 10, 0⟩).sideLevels OrderKind.bid) 10 =
      levelAt (emptyBook.sideLevels OrderKind.bid) 10 ++ [⟨7, .bid, 10, 0⟩] :=
  zero_qty_noncrossing_posts emptyBook ⟨7, .bid, 10, 0⟩ rfl List.Pairwise.nil
    (by decide)

end Ironlobe
